import Mathlib

/-!
Shallow embedding of the bit-banged SPI engine and flash-programming logic of
`examples/mercpcl.rs` (safe-ftdi repository).  The FTDI transport is modelled
as a deterministic mock: a script of outcomes for successive `write_data` and
`read_pins` calls, plus a log of the transport-visible events.  All functions
are direct translations of the Rust source; the `spec`-side decoders
(`bitsVal`, `inBody`, `pollRes`, ...) are the pure models the theorems compare
the embedded code against.
-/

namespace Mercpcl

/- Pin bit positions, from the `Pins` bitflags in the source. -/
namespace Pins

def CSN0 : Nat := 0b00000001

def CSN1 : Nat := 0b00000010

def SCLK : Nat := 0b00000100

def MISO : Nat := 0b00001000

def MOSI : Nat := 0b00010000

def PROG : Nat := 0b00100000

end Pins

/-- Device selection, from the `DeviceSelect` bitflags in the source. -/
inductive DeviceSelect where
  | FPGA
  | FLASH
  | IDLE
deriving DecidableEq

/-- Control byte of each selection, exactly as in the source
(`FPGA = CSN0`, `FLASH = CSN1`, `IDLE = CSN0 | CSN0`). -/
def DeviceSelect.bits : DeviceSelect → Nat
  | .FPGA => Pins.CSN0
  | .FLASH => Pins.CSN1
  | .IDLE => Pins.CSN0 ||| Pins.CSN0

/-- Transport-visible event: a successful `write_data` of a byte buffer, or a
successful `read_pins` returning a pin byte. -/
inductive Ev where
  | wr (bytes : List Nat)
  | rd (v : Nat)
deriving DecidableEq

/-- Mock transport behaviour: the outcome of each successive `write_data`
call and each successive `read_pins` call.  Past the end of a script the
operation succeeds (with pin value 0 for reads). -/
structure Mock where
  writes : List (Except Nat Unit)
  pins : List (Except Nat Nat)

/-- Transport state: the mock, the number of writes and reads issued so far,
and the chronological log of successful operations. -/
structure TState where
  mock : Mock
  wIdx : Nat
  pIdx : Nat
  log : List Ev

/-- Fresh transport state over a mock. -/
def initT (m : Mock) : TState := ⟨m, 0, 0, []⟩

/-- Model of `Context::write_data`: consult the mock's write script. -/
def write_data (bytes : List Nat) (s : TState) : TState × Except Nat Unit :=
  match s.mock.writes.getD s.wIdx (Except.ok ()) with
  | .ok _ => ({ s with wIdx := s.wIdx + 1, log := s.log ++ [Ev.wr bytes] }, .ok ())
  | .error e => ({ s with wIdx := s.wIdx + 1 }, .error e)

/-- Model of `Context::read_pins`: consult the mock's pin script. -/
def read_pins (s : TState) : TState × Except Nat Nat :=
  match s.mock.pins.getD s.pIdx (Except.ok 0) with
  | .ok v => ({ s with pIdx := s.pIdx + 1, log := s.log ++ [Ev.rd v] }, .ok v)
  | .error e => ({ s with pIdx := s.pIdx + 1 }, .error e)

/-- Translation of `Mercury::spi_sel`: write the selection's control byte. -/
def spi_sel (sel : DeviceSelect) (s : TState) : TState × Except Nat Unit :=
  write_data [sel.bits] s

/-- Bit-pair entries of the SPI word, from the loop in `Mercury::spi_out`.
The `BitReader` reads the byte most-significant-bit first, so pair `k`
carries bit `7 - k` of the byte. -/
def spiWordBits (b : Nat) (selBits : Nat) : List Nat → List Nat
  | [] => []
  | k :: rest =>
    let curr_bit := if b.testBit (7 - k) then Pins.MOSI else 0
    (curr_bit ||| selBits) :: (curr_bit ||| Pins.SCLK ||| selBits) ::
      spiWordBits b selBits rest

/-- The 17-entry `spi_word` built per input byte by `Mercury::spi_out`. -/
def spiWord (b : Nat) (sel : DeviceSelect) : List Nat :=
  spiWordBits b sel.bits [0, 1, 2, 3, 4, 5, 6, 7] ++ [sel.bits]

/-- Loop body of `Mercury::spi_out`: one 17-byte write per input byte,
counting processed bytes, aborting on the first transport error. -/
def spi_out_go (sel : DeviceSelect) : List Nat → Nat → TState → TState × Except Nat Nat
  | [], cnt, s => (s, .ok cnt)
  | b :: rest, cnt, s =>
    match write_data (spiWord b sel) s with
    | (s1, .error e) => (s1, .error e)
    | (s1, .ok _) => spi_out_go sel rest (cnt + 1) s1

/-- Translation of `Mercury::spi_out`. -/
def spi_out (bytes : List Nat) (sel : DeviceSelect) (s : TState) : TState × Except Nat Nat :=
  spi_out_go sel bytes 0 s

/-- The bit indices `(0..8).rev()` of the inner loop of `Mercury::spi_in`. -/
def rev8 : List Nat := [7, 6, 5, 4, 3, 2, 1, 0]

/-- Inner loop of `Mercury::spi_in`: per bit, sample the pins, OR `1 <<< i`
into the byte when MISO is high, then write clock-high and clock-low. -/
def spi_in_bits (sel : DeviceSelect) : List Nat → Nat → TState → TState × Except Nat Nat
  | [], curr, s => (s, .ok curr)
  | i :: rest, curr, s =>
    match read_pins s with
    | (s1, .error e) => (s1, .error e)
    | (s1, .ok pin_vals) =>
      let curr2 := if Pins.MISO &&& pin_vals ≠ 0 then curr ||| (1 <<< i) else curr
      match write_data [Pins.SCLK ||| sel.bits] s1 with
      | (s2, .error e) => (s2, .error e)
      | (s2, .ok _) =>
        match write_data [sel.bits] s2 with
        | (s3, .error e) => (s3, .error e)
        | (s3, .ok _) => spi_in_bits sel rest curr2 s3

/-- Outer loop of `Mercury::spi_in` over the requested byte count, followed by
the terminating write of the IDLE byte. -/
def spi_in_go (sel : DeviceSelect) : Nat → Nat → List Nat → TState → TState × Except Nat (List Nat × Nat)
  | 0, cnt, acc, s =>
    match write_data [DeviceSelect.IDLE.bits] s with
    | (s1, .error e) => (s1, .error e)
    | (s1, .ok _) => (s1, .ok (acc, cnt))
  | m + 1, cnt, acc, s =>
    match spi_in_bits sel rev8 0 s with
    | (s1, .error e) => (s1, .error e)
    | (s1, .ok byte) => spi_in_go sel m (cnt + 1) (acc ++ [byte]) s1

/-- Translation of `Mercury::spi_in` for a buffer of `n` bytes: returns the
assembled bytes and the count. -/
def spi_in (n : Nat) (sel : DeviceSelect) (s : TState) : TState × Except Nat (List Nat × Nat) :=
  spi_in_go sel n 0 [] s

/-- Model of `LittleEndian::read_u32` on a 4-byte buffer. -/
def le32 (a : List Nat) : Nat :=
  a.getD 0 0 + 256 * a.getD 1 0 + 65536 * a.getD 2 0 + 16777216 * a.getD 3 0

/-- Translation of `Mercury::flash_id`.  Note the source propagates the
recovery `spi_sel(IDLE)` with the try operator, so a failing recovery write
returns the recovery's error, not the original one. -/
def flash_id (s : TState) : TState × Except Nat Nat :=
  match spi_out [0x9F] .FLASH s with
  | (s1, .error e) =>
    (match spi_sel .IDLE s1 with
     | (s2, .error e2) => (s2, .error e2)
     | (s2, .ok _) => (s2, .error e))
  | (s1, .ok _) =>
    match spi_in 4 .FLASH s1 with
    | (s2, .error e) =>
      (match spi_sel .IDLE s2 with
       | (s3, .error e2) => (s3, .error e2)
       | (s3, .ok _) => (s3, .error e))
    | (s2, .ok (id_arr, _)) =>
      match spi_sel .IDLE s2 with
      | (s3, .error e) => (s3, .error e)
      | (s3, .ok _) => (s3, .ok (le32 id_arr))

/-- The error type `MercuryError` of the source: a wrapped safe-ftdi
transport error, or the flash-poll timeout. -/
inductive MercuryError where
  | SafeFtdi (e : Nat)
  | Timeout
deriving DecidableEq

/-- Translation of `Mercury::flash_poll`: up to `timeout` iterations of
status-read opcode `0xD7`, one status byte in, deselect, stopping with
success as soon as bit 7 of the status byte is set. -/
def flash_poll : Nat → TState → TState × Except MercuryError Unit
  | 0, s => (s, .error .Timeout)
  | fuel + 1, s =>
    match spi_out [0xD7] .FLASH s with
    | (s1, .error e) => (s1, .error (.SafeFtdi e))
    | (s1, .ok _) =>
      match spi_in 1 .FLASH s1 with
      | (s2, .error e) => (s2, .error (.SafeFtdi e))
      | (s2, .ok (arr, _)) =>
        let status_code := arr.getD 0 0
        match spi_sel .IDLE s2 with
        | (s3, .error e) => (s3, .error (.SafeFtdi e))
        | (s3, .ok _) =>
          if status_code &&& 0x80 ≠ 0 then (s3, .ok ()) else flash_poll fuel s3

/-- Translation of `Mercury::flash_write`: buffer-load command, the 264 data
bytes, deselect, commit command with the (masked) page address split into
high and low bytes, deselect, then poll. -/
def flash_write (buf : List Nat) (page_addr : Nat) (s : TState) : TState × Except MercuryError Unit :=
  let paddr_hi := ((page_addr &&& 0x3FF) >>> 7) &&& 0x07
  let paddr_lo := ((page_addr &&& 0x3FF) <<< 1) &&& 0xFE
  let buf_to_flash_cmd := [0x88, paddr_hi, paddr_lo, 0x00]
  match spi_out [0x84, 0x00, 0x00, 0x00] .FLASH s with
  | (s1, .error e) => (s1, .error (.SafeFtdi e))
  | (s1, .ok _) =>
    match spi_out buf .FLASH s1 with
    | (s2, .error e) => (s2, .error (.SafeFtdi e))
    | (s2, .ok _) =>
      match spi_sel .IDLE s2 with
      | (s3, .error e) => (s3, .error (.SafeFtdi e))
      | (s3, .ok _) =>
        match spi_out buf_to_flash_cmd .FLASH s3 with
        | (s4, .error e) => (s4, .error (.SafeFtdi e))
        | (s4, .ok _) =>
          match spi_sel .IDLE s4 with
          | (s5, .error e) => (s5, .error (.SafeFtdi e))
          | (s5, .ok _) =>
            let r := flash_poll 300000 s5
            (r.1, r.2.map fun _ => ())

/-- Page-write loop of `main`: read up to 264 bytes into the page buffer
(overwriting its first `n` entries, the rest keeping their previous, stale
contents), break without writing when the read is short, otherwise
`flash_write` the buffer at the current page number and record it as the
last page written.  Returns the final buffer, the unread rest of the
stream, the last page written, and the pages written with their data. -/
def progLoop : Nat → Nat → List Nat → List Nat → Nat → List (Nat × List Nat) →
    List Nat × List Nat × Nat × List (Nat × List Nat)
  | 0, _, buf, stream, last, acc => (buf, stream, last, acc)
  | fuel + 1, pageNum, buf, stream, last, acc =>
    let n := min 264 stream.length
    let buf2 := stream.take n ++ buf.drop n
    let stream2 := stream.drop n
    if n < 264 then (buf2, stream2, last, acc)
    else progLoop fuel (pageNum + 1) buf2 stream2 pageNum (acc ++ [(pageNum, buf2)])

/-- The programming workflow of `main` over an abstract input stream: the
page loop over page numbers `0..8192`, then one further read; zero bytes
read means the stream ended on a page boundary and one more page is written
at `last_page_written + 1` from the (stale) buffer, anything else is the
oversize failure. -/
def workflow (stream : List Nat) : Except Unit (List (Nat × List Nat)) :=
  match progLoop 8192 0 (List.replicate 264 0) stream 0 [] with
  | (buf, stream2, last, acc) =>
    let n := min 264 stream2.length
    let buf2 := stream2.take n ++ buf.drop n
    if n == 0 then Except.ok (acc ++ [(last + 1, buf2)])
    else Except.error ()

/-- Page indices written by the workflow. -/
def wfPages (stream : List Nat) : Except Unit (List Nat) :=
  (workflow stream).map (List.map Prod.fst)

/-- The 264-byte slice of a stream belonging to page `j`. -/
def pageChunk (s : List Nat) (j : Nat) : List Nat :=
  (s.drop (264 * j)).take 264

/- Specification-side pure models, used to state what the embedded code does
on an error-free mock. -/

/-- Pin byte returned by the `k`-th successful `read_pins` when the mock's
pin script is `vs` (zero past the end of the script). -/
def pinVal (vs : List Nat) (k : Nat) : Nat := vs.getD k 0

/-- Byte assembled by `spi_in`'s inner loop over bit indices `is`, starting
at sample position `p` of the pin script. -/
def bitsVal (vs : List Nat) (p : Nat) : List Nat → Nat
  | [] => 0
  | i :: rest =>
    (if Pins.MISO &&& pinVal vs p ≠ 0 then 1 <<< i else 0) ||| bitsVal vs (p + 1) rest

/-- Events of `spi_in`'s inner loop over bit indices `is`: per bit, a pin
sample followed by the clock-high and clock-low single-byte writes. -/
def bitsLog (vs : List Nat) (p : Nat) (sel : DeviceSelect) : List Nat → List Ev
  | [] => []
  | _ :: rest =>
    Ev.rd (pinVal vs p) :: Ev.wr [Pins.SCLK ||| sel.bits] :: Ev.wr [sel.bits] ::
      bitsLog vs (p + 1) sel rest

/-- Events of `spi_in`'s outer loop over `n` bytes (without the terminating
IDLE write). -/
def inBody (vs : List Nat) (p : Nat) (sel : DeviceSelect) : Nat → List Ev
  | 0 => []
  | m + 1 => bitsLog vs p sel rev8 ++ inBody vs (p + 8) sel m

/-- Bytes assembled by `spi_in` for `n` requested bytes starting at sample
position `p`. -/
def inBytes (vs : List Nat) (p : Nat) : Nat → List Nat
  | 0 => []
  | m + 1 => bitsVal vs p rev8 :: inBytes vs (p + 8) m

/-- Status byte observed by poll iteration reading samples from position `p`. -/
def statusByte (vs : List Nat) (p : Nat) : Nat := bitsVal vs p rev8

/-- Pure model of `flash_poll`'s result over the pin script. -/
def pollRes (vs : List Nat) : Nat → Nat → Except MercuryError Unit
  | _, 0 => .error .Timeout
  | p, fuel + 1 =>
    if statusByte vs p &&& 0x80 ≠ 0 then .ok () else pollRes vs (p + 8) fuel

/-- Pure model of the number of poll iterations `flash_poll` performs. -/
def pollSteps (vs : List Nat) : Nat → Nat → Nat
  | _, 0 => 0
  | p, fuel + 1 =>
    if statusByte vs p &&& 0x80 ≠ 0 then 1 else pollSteps vs (p + 8) fuel + 1

/-- Modelled from the spec (round-trip test): a pin script presenting back,
sample by sample, the MOSI levels that `spi_out`'s waveform for byte `b`
drives on its eight bit-pairs. -/
def loopbackPins (b : Nat) : List Nat :=
  (List.range 8).map fun k =>
    if Pins.MOSI &&& (spiWord b .FLASH).getD (2 * k) 0 ≠ 0 then Pins.MISO else 0

/-- Modelled from the spec: an active-low chip-select line is asserted by a
control byte exactly when its bit is driven low. -/
def assertsCS (b csn : Nat) : Bool := b &&& csn == 0

/- Helper lemmas characterizing each operation on an error-free mock. -/

lemma getD_map_ok (vs : List Nat) (p : Nat) :
    (vs.map Except.ok).getD p (Except.ok 0) = (Except.ok (pinVal vs p) : Except Nat Nat) := by
  induction vs generalizing p with
  | nil => rfl
  | cons a as ih =>
    cases p with
    | zero => rfl
    | succ q => simp [pinVal, List.getD_cons_succ, ih q]

lemma lor_left_comm (a b c : Nat) : a ||| (b ||| c) = b ||| (a ||| c) := by
  rw [← Nat.or_assoc, Nat.or_comm a b, Nat.or_assoc]

lemma lor_right_comm (a b c : Nat) : a ||| b ||| c = a ||| c ||| b := by
  rw [Nat.or_assoc, Nat.or_comm b c, ← Nat.or_assoc]

lemma spi_out_go_spec (sel : DeviceSelect) (ps : List (Except Nat Nat)) :
    ∀ (bytes : List Nat) (cnt w p : Nat) (L : List Ev),
    spi_out_go sel bytes cnt ⟨⟨[], ps⟩, w, p, L⟩ =
      (⟨⟨[], ps⟩, w + bytes.length, p,
        L ++ bytes.map fun b => Ev.wr (spiWord b sel)⟩, .ok (cnt + bytes.length)) := by
  intro bytes
  induction bytes with
  | nil => intro cnt w p L; simp [spi_out_go]
  | cons b rest ih =>
    intro cnt w p L
    simp only [spi_out_go, write_data, List.getD_nil]
    rw [ih]
    simp [List.append_assoc]
    omega

lemma spi_out_spec (bytes : List Nat) (sel : DeviceSelect) (ps : List (Except Nat Nat))
    (w p : Nat) (L : List Ev) :
    spi_out bytes sel ⟨⟨[], ps⟩, w, p, L⟩ =
      (⟨⟨[], ps⟩, w + bytes.length, p,
        L ++ bytes.map fun b => Ev.wr (spiWord b sel)⟩, .ok bytes.length) := by
  simpa [spi_out] using spi_out_go_spec sel ps bytes 0 w p L

lemma spi_sel_spec (sel : DeviceSelect) (ps : List (Except Nat Nat))
    (w p : Nat) (L : List Ev) :
    spi_sel sel ⟨⟨[], ps⟩, w, p, L⟩ =
      (⟨⟨[], ps⟩, w + 1, p, L ++ [Ev.wr [sel.bits]]⟩, .ok ()) := by
  simp [spi_sel, write_data]

lemma spi_in_bits_spec (sel : DeviceSelect) (vs : List Nat) :
    ∀ (is : List Nat) (curr w p : Nat) (L : List Ev),
    spi_in_bits sel is curr ⟨⟨[], vs.map Except.ok⟩, w, p, L⟩ =
      (⟨⟨[], vs.map Except.ok⟩, w + 2 * is.length, p + is.length,
        L ++ bitsLog vs p sel is⟩,
       .ok (curr ||| bitsVal vs p is)) := by
  intro is
  induction is with
  | nil => intro curr w p L; simp [spi_in_bits, bitsLog, bitsVal]
  | cons i rest ih =>
    intro curr w p L
    simp only [spi_in_bits, read_pins, getD_map_ok, write_data, List.getD_nil]
    rw [ih]
    by_cases h : Pins.MISO &&& pinVal vs p ≠ 0 <;>
      simp [h, bitsVal, bitsLog, Nat.or_assoc, List.append_assoc] <;> omega

lemma spi_in_go_spec (sel : DeviceSelect) (vs : List Nat) :
    ∀ (m cnt w p : Nat) (acc : List Nat) (L : List Ev),
    spi_in_go sel m cnt acc ⟨⟨[], vs.map Except.ok⟩, w, p, L⟩ =
      (⟨⟨[], vs.map Except.ok⟩, w + 16 * m + 1, p + 8 * m,
        L ++ inBody vs p sel m ++ [Ev.wr [DeviceSelect.IDLE.bits]]⟩,
       .ok (acc ++ inBytes vs p m, cnt + m)) := by
  intro m
  induction m with
  | zero => intro cnt w p acc L; simp [spi_in_go, write_data, inBody, inBytes]
  | succ k ih =>
    intro cnt w p acc L
    simp only [spi_in_go, spi_in_bits_spec, Nat.zero_or, rev8, List.length_cons,
      List.length_nil, ih]
    simp [inBody, inBytes, rev8, List.append_assoc]
    omega

lemma spi_in_spec (n : Nat) (sel : DeviceSelect) (vs : List Nat) (w p : Nat) (L : List Ev) :
    spi_in n sel ⟨⟨[], vs.map Except.ok⟩, w, p, L⟩ =
      (⟨⟨[], vs.map Except.ok⟩, w + 16 * n + 1, p + 8 * n,
        L ++ inBody vs p sel n ++ [Ev.wr [DeviceSelect.IDLE.bits]]⟩,
       .ok (inBytes vs p n, n)) := by
  simpa [spi_in] using spi_in_go_spec sel vs n 0 w p [] L

lemma flash_poll_spec (vs : List Nat) :
    ∀ (fuel w p : Nat) (L : List Ev),
      (flash_poll fuel ⟨⟨[], vs.map Except.ok⟩, w, p, L⟩).2 = pollRes vs p fuel ∧
      (flash_poll fuel ⟨⟨[], vs.map Except.ok⟩, w, p, L⟩).1.pIdx =
        p + 8 * pollSteps vs p fuel := by
  intro fuel
  induction fuel with
  | zero => intro w p L; simp [flash_poll, pollRes, pollSteps]
  | succ k ih =>
    intro w p L
    simp only [flash_poll, spi_out_spec, spi_in_spec, spi_sel_spec, inBytes,
      List.getD_cons_zero, Nat.mul_one]
    by_cases h : bitsVal vs p rev8 &&& 0x80 ≠ 0
    · simp [h, pollRes, pollSteps, statusByte]
    · simp only [h, if_neg, if_false, ite_false]
      refine ⟨((ih _ _ _).1).trans ?_, ((ih _ _ _).2).trans ?_⟩
      · simp [pollRes, statusByte, h]
      · simp only [pollSteps, statusByte]
        rw [if_neg h]
        omega

lemma pollRes_ok_iff (vs : List Nat) :
    ∀ (n p : Nat),
      pollRes vs p n = .ok () ↔ ∃ t < n, statusByte vs (p + 8 * t) &&& 0x80 ≠ 0 := by
  intro n
  induction n with
  | zero => intro p; simp [pollRes]
  | succ k ih =>
    intro p
    by_cases h : statusByte vs p &&& 0x80 ≠ 0
    · constructor
      · intro _; exact ⟨0, by omega, by simpa using h⟩
      · intro _; simp [pollRes, h]
    · simp only [pollRes, if_neg h]
      rw [ih (p + 8)]
      constructor
      · rintro ⟨t, ht, hP⟩
        exact ⟨t + 1, by omega, by rw [show p + 8 * (t + 1) = p + 8 + 8 * t by ring]; exact hP⟩
      · rintro ⟨t, ht, hP⟩
        cases t with
        | zero => exact absurd (by simpa using hP) h
        | succ u =>
          exact ⟨u, by omega, by rw [show p + 8 + 8 * u = p + 8 * (u + 1) by ring]; exact hP⟩

lemma pollRes_cases (vs : List Nat) :
    ∀ (n p : Nat), pollRes vs p n = .ok () ∨ pollRes vs p n = .error .Timeout := by
  intro n
  induction n with
  | zero => intro p; simp [pollRes]
  | succ k ih =>
    intro p
    by_cases h : statusByte vs p &&& 0x80 ≠ 0 <;> simp [pollRes, h, ih (p + 8)]

lemma pollSteps_first_hit (vs : List Nat) :
    ∀ (n p t : Nat), t < n → statusByte vs (p + 8 * t) &&& 0x80 ≠ 0 →
      (∀ u < t, statusByte vs (p + 8 * u) &&& 0x80 = 0) →
      pollSteps vs p n = t + 1 := by
  intro n
  induction n with
  | zero => intro p t ht _ _; omega
  | succ k ih =>
    intro p t ht hready hmin
    cases t with
    | zero =>
      have h : statusByte vs p &&& 0x80 ≠ 0 := by simpa using hready
      simp [pollSteps, h]
    | succ u =>
      have h0 : ¬statusByte vs p &&& 0x80 ≠ 0 := by
        have := hmin 0 (by omega)
        simpa using this
      have hrec := ih (p + 8) u (by omega)
        (by rw [show p + 8 + 8 * u = p + 8 * (u + 1) by ring]; exact hready)
        (fun v hv => by
          rw [show p + 8 + 8 * v = p + 8 * (v + 1) by ring]
          exact hmin (v + 1) (by omega))
      simp only [pollSteps]
      rw [if_neg h0, hrec]

lemma testBit_ite_shift (c : Prop) [Decidable c] (m k : Nat) :
    (if c then 1 <<< m else 0 : Nat).testBit k = (decide c && decide (m = k)) := by
  by_cases h : c <;> simp [h, Nat.one_shiftLeft, Nat.testBit_two_pow]

lemma except_map_unit (r : Except MercuryError Unit) : (r.map fun _ => ()) = r := by
  cases r with
  | error e => rfl
  | ok u => cases u; rfl

lemma mask_hi_eq (page : Nat) :
    ((page &&& 0x3FF) >>> 7) &&& 0x07 = (page >>> 7) &&& 0x07 := by
  have h1023 : (0x3FF : Nat) = 2 ^ 10 - 1 := by norm_num
  have h7 : (0x07 : Nat) = 2 ^ 3 - 1 := by norm_num
  rw [h1023, h7]
  apply Nat.eq_of_testBit_eq
  intro j
  simp only [Nat.testBit_land, Nat.testBit_shiftRight, Nat.testBit_two_pow_sub_one]
  by_cases hj : j < 3
  · have hj10 : 7 + j < 10 := by omega
    simp [hj, hj10]
  · simp [hj]

lemma mask_lo_eq (page : Nat) :
    ((page &&& 0x3FF) <<< 1) &&& 0xFE = (page <<< 1) &&& 0xFE := by
  have h1023 : (0x3FF : Nat) = 2 ^ 10 - 1 := by norm_num
  rw [h1023, Nat.and_pow_two_sub_one_eq_mod]
  apply Nat.eq_of_testBit_eq
  intro j
  simp only [Nat.testBit_land, Nat.testBit_shiftLeft, Nat.testBit_mod_two_pow]
  by_cases hj : j < 9
  · by_cases hj1 : 1 ≤ j
    · have : j - 1 < 10 := by omega
      simp [hj1, this]
    · simp [hj1]
  · have h254 : Nat.testBit 0xFE j = false := by
      apply Nat.testBit_lt_two_pow
      have : (2 : Nat) ^ 9 ≤ 2 ^ j := Nat.pow_le_pow_right (by norm_num) (by omega)
      omega
    simp [h254]

lemma mask_mod_eq (page : Nat) : (page % 1024) &&& 0x3FF = page &&& 0x3FF := by
  have h : ∀ q : Nat, q &&& 0x3FF = q % 1024 := by
    intro q
    have hq := Nat.and_pow_two_sub_one_eq_mod q 10
    norm_num at hq
    exact hq
  rw [h, h]
  omega

lemma spiWord_length (b : Nat) (sel : DeviceSelect) : (spiWord b sel).length = 17 := by
  simp [spiWord, spiWordBits]

lemma count_wr_idle_map (bs : List Nat) (sel : DeviceSelect) :
    (bs.map fun b => Ev.wr (spiWord b sel)).count (Ev.wr [DeviceSelect.IDLE.bits]) = 0 := by
  rw [List.count_eq_zero]
  intro hmem
  rw [List.mem_map] at hmem
  obtain ⟨b, _, hEq⟩ := hmem
  injection hEq with h
  have hlen := congrArg List.length h
  rw [spiWord_length] at hlen
  simp at hlen

lemma flash_write_spec (buf : List Nat) (page : Nat) (vs : List Nat)
    (w p : Nat) (L : List Ev) :
    flash_write buf page ⟨⟨[], vs.map Except.ok⟩, w, p, L⟩ =
      flash_poll 300000
        ⟨⟨[], vs.map Except.ok⟩, w + 4 + buf.length + 1 + 4 + 1, p,
          L ++ ([0x84, 0x00, 0x00, 0x00].map fun b => Ev.wr (spiWord b .FLASH)) ++
            (buf.map fun b => Ev.wr (spiWord b .FLASH)) ++
            [Ev.wr [DeviceSelect.IDLE.bits]] ++
            ([0x88, ((page &&& 0x3FF) >>> 7) &&& 0x07, ((page &&& 0x3FF) <<< 1) &&& 0xFE,
              0x00].map fun b => Ev.wr (spiWord b .FLASH)) ++
            [Ev.wr [DeviceSelect.IDLE.bits]]⟩ := by
  simp [flash_write, spi_out_spec, spi_sel_spec, except_map_unit, List.append_assoc]

/- The claim theorems. -/

/-- C1 (code bug): the source defines the IDLE control byte as
`CSN0 | CSN0 = 0x01`, the very byte of the FPGA selection, although its own
comment says `// Neither`.  `select(Idle)` therefore writes `0x01`, which
leaves the active-low CSN1 line low and asserts the FPGA chip-select,
contradicting the claim that Idle asserts neither chip-select. -/
theorem c1_idle_asserts_fpga :
    (spi_sel DeviceSelect.IDLE (initT ⟨[], []⟩)).1.log = [Ev.wr [DeviceSelect.IDLE.bits]] ∧
    DeviceSelect.IDLE.bits = 1 ∧
    assertsCS DeviceSelect.IDLE.bits Pins.CSN1 = true ∧
    DeviceSelect.IDLE.bits = DeviceSelect.FPGA.bits :=
  ⟨rfl, rfl, rfl, rfl⟩

/-- C2: on an error-free transport, `spi_out` issues exactly one write of the
full 17-entry word per input byte and returns the number of input bytes
processed; in the word for byte `b`, entry `2*i` is the selection byte with
the MOSI bit OR'd in exactly when bit `7-i` of `b` is 1 (clock low), entry
`2*i+1` is the same value with the clock bit additionally set, and entry 16
is the selection byte alone. -/
theorem c2_spi_out_waveform (bytes : List Nat) (sel : DeviceSelect)
    (ps : List (Except Nat Nat)) :
    spi_out bytes sel (initT ⟨[], ps⟩) =
      (⟨⟨[], ps⟩, bytes.length, 0, bytes.map fun b => Ev.wr (spiWord b sel)⟩,
       .ok bytes.length) ∧
    (∀ (b : Nat) (i : Fin 8),
      (spiWord b sel).getD (2 * i.val) 0 =
        sel.bits ||| (if b.testBit (7 - i.val) then Pins.MOSI else 0) ∧
      (spiWord b sel).getD (2 * i.val + 1) 0 =
        (spiWord b sel).getD (2 * i.val) 0 ||| Pins.SCLK) ∧
    (∀ b : Nat, (spiWord b sel).getD 16 0 = sel.bits ∧ (spiWord b sel).length = 17) := by
  refine ⟨?_, ?_, ?_⟩
  · simpa [initT] using spi_out_spec bytes sel ps 0 0 []
  · intro b i
    fin_cases i <;>
      exact ⟨by simp [spiWord, spiWordBits, Nat.or_comm],
             by simp [spiWord, spiWordBits, Nat.or_comm, Nat.or_assoc, lor_left_comm]⟩
  · intro b
    exact ⟨by simp [spiWord, spiWordBits], by simp [spiWord, spiWordBits]⟩

/-- C3: on an error-free transport with pin script `vs`, `spi_in` assembles
each byte MSB first; for each bit the pins are sampled first and the clock
pulse follows as two separate single-byte writes (clock-high with selection,
then clock-low with selection), and bit `i` of the assembled byte is set
exactly when the MISO line was high at that bit's sample. -/
theorem c3_spi_in_sampling (n : Nat) (sel : DeviceSelect) (vs : List Nat) :
    spi_in n sel (initT ⟨[], vs.map Except.ok⟩) =
      (⟨⟨[], vs.map Except.ok⟩, 16 * n + 1, 8 * n,
        inBody vs 0 sel n ++ [Ev.wr [DeviceSelect.IDLE.bits]]⟩,
       .ok (inBytes vs 0 n, n)) ∧
    (∀ p, bitsLog vs p sel rev8 =
      [Ev.rd (pinVal vs p), Ev.wr [Pins.SCLK ||| sel.bits], Ev.wr [sel.bits],
       Ev.rd (pinVal vs (p + 1)), Ev.wr [Pins.SCLK ||| sel.bits], Ev.wr [sel.bits],
       Ev.rd (pinVal vs (p + 2)), Ev.wr [Pins.SCLK ||| sel.bits], Ev.wr [sel.bits],
       Ev.rd (pinVal vs (p + 3)), Ev.wr [Pins.SCLK ||| sel.bits], Ev.wr [sel.bits],
       Ev.rd (pinVal vs (p + 4)), Ev.wr [Pins.SCLK ||| sel.bits], Ev.wr [sel.bits],
       Ev.rd (pinVal vs (p + 5)), Ev.wr [Pins.SCLK ||| sel.bits], Ev.wr [sel.bits],
       Ev.rd (pinVal vs (p + 6)), Ev.wr [Pins.SCLK ||| sel.bits], Ev.wr [sel.bits],
       Ev.rd (pinVal vs (p + 7)), Ev.wr [Pins.SCLK ||| sel.bits], Ev.wr [sel.bits]]) ∧
    (∀ (p : Nat) (i : Fin 8),
      (bitsVal vs p rev8).testBit i.val = true ↔
        Pins.MISO &&& pinVal vs (p + (7 - i.val)) ≠ 0) := by
  refine ⟨?_, fun p => rfl, ?_⟩
  · simpa [initT] using spi_in_spec n sel vs 0 0 []
  · intro p i
    fin_cases i <;>
      · simp only [bitsVal, rev8, Nat.testBit_lor, testBit_ite_shift, Nat.zero_testBit]
        simp

set_option maxRecDepth 8000 in
lemma loopback_pure : ∀ b : Fin 256, bitsVal (loopbackPins b.val) 0 rev8 = b.val := by decide

lemma count_idle_singleton :
    List.count (Ev.wr [DeviceSelect.IDLE.bits]) [Ev.wr [DeviceSelect.IDLE.bits]] = 1 := rfl

/-- C4: if the transport's pin samples present back, in order, the MOSI
levels that `spi_out`'s 17-entry waveform for byte `b` drives on its eight
bit-pairs, then `spi_in` reconstructs exactly the byte `b`: the
encode/decode round trip is the identity. -/
theorem c4_loopback (b : Fin 256) :
    (spi_in 1 DeviceSelect.FLASH (initT ⟨[], (loopbackPins b.val).map Except.ok⟩)).2 =
      .ok ([b.val], 1) := by
  simp [initT, spi_in_spec, inBytes, loopback_pure b]

/-- C5: on an error-free transport, `flash_write` is `flash_poll` run from an
intermediate state whose log is exactly: the buffer-load command `[0x84,0,0,0]`
as SPI words to FLASH, the 264 data bytes as SPI words to FLASH, one
select(Idle) write, the commit command `[0x88, (page>>>7)&&&7, (page<<<1)&&&0xFE, 0]`
as SPI words to FLASH, and a second select(Idle) write — in particular
exactly two select(Idle) writes happen before polling begins. -/
theorem c5_flash_write_sequence (buf : List Nat) (page : Nat) (vs : List Nat)
    (_hlen : buf.length = 264) :
    ∃ sMid : TState,
      flash_write buf page (initT ⟨[], vs.map Except.ok⟩) = flash_poll 300000 sMid ∧
      sMid.log =
        ([0x84, 0x00, 0x00, 0x00].map fun b => Ev.wr (spiWord b .FLASH)) ++
          (buf.map fun b => Ev.wr (spiWord b .FLASH)) ++
          [Ev.wr [DeviceSelect.IDLE.bits]] ++
          ([0x88, (page >>> 7) &&& 0x07, (page <<< 1) &&& 0xFE, 0x00].map
            fun b => Ev.wr (spiWord b .FLASH)) ++
          [Ev.wr [DeviceSelect.IDLE.bits]] ∧
      sMid.log.count (Ev.wr [DeviceSelect.IDLE.bits]) = 2 := by
  refine ⟨_, by rw [show initT ⟨[], vs.map Except.ok⟩ = ⟨⟨[], vs.map Except.ok⟩, 0, 0, []⟩
      from rfl, flash_write_spec], ?_, ?_⟩
  · show ([] : List Ev) ++ _ ++ _ ++ _ ++ _ ++ _ = _
    rw [mask_hi_eq, mask_lo_eq]
    simp
  · show List.count _ (([] : List Ev) ++ _ ++ _ ++ _ ++ _ ++ _) = 2
    simp only [List.nil_append, List.count_append, count_wr_idle_map, count_idle_singleton]

/-- C5 witness: the sequence property instantiated on a concrete 264-byte
buffer, page 5 and an empty (all-success, all-zero) pin script. -/
theorem c5_flash_write_sequence_witness :
    (List.replicate 264 0).length = 264 ∧
    ∃ sMid : TState,
      flash_write (List.replicate 264 0) 5
          (initT ⟨[], ([] : List Nat).map Except.ok⟩) = flash_poll 300000 sMid ∧
      sMid.log =
        ([0x84, 0x00, 0x00, 0x00].map fun b => Ev.wr (spiWord b .FLASH)) ++
          ((List.replicate 264 0).map fun b => Ev.wr (spiWord b .FLASH)) ++
          [Ev.wr [DeviceSelect.IDLE.bits]] ++
          ([0x88, (5 >>> 7) &&& 0x07, (5 <<< 1) &&& 0xFE, 0x00].map
            fun b => Ev.wr (spiWord b .FLASH)) ++
          [Ev.wr [DeviceSelect.IDLE.bits]] ∧
      sMid.log.count (Ev.wr [DeviceSelect.IDLE.bits]) = 2 :=
  ⟨by rw [List.length_replicate],
   c5_flash_write_sequence (List.replicate 264 0) 5 [] (by rw [List.length_replicate])⟩

/-- C6: `flash_poll n` succeeds exactly when one of its at most `n` status
reads sees bit 7 set; when the first ready status is at iteration `t`, the
poll has consumed exactly `t + 1` status bytes (returns at the first hit);
when all `n` reads see bit 7 clear, the result is the Timeout error, which
is distinct from every transport error. -/
theorem c6_flash_poll (n : Nat) (vs : List Nat) :
    ((flash_poll n (initT ⟨[], vs.map Except.ok⟩)).2 = .ok () ↔
      ∃ t < n, statusByte vs (8 * t) &&& 0x80 ≠ 0) ∧
    ((∀ t < n, statusByte vs (8 * t) &&& 0x80 = 0) →
      (flash_poll n (initT ⟨[], vs.map Except.ok⟩)).2 = .error MercuryError.Timeout) ∧
    (∀ t < n, statusByte vs (8 * t) &&& 0x80 ≠ 0 →
      (∀ u < t, statusByte vs (8 * u) &&& 0x80 = 0) →
      (flash_poll n (initT ⟨[], vs.map Except.ok⟩)).1.pIdx = 8 * (t + 1) ∧
      (flash_poll n (initT ⟨[], vs.map Except.ok⟩)).2 = .ok ()) ∧
    (∀ e : Nat, MercuryError.Timeout ≠ MercuryError.SafeFtdi e) := by
  have h1 := (flash_poll_spec vs n 0 0 []).1
  have h2 := (flash_poll_spec vs n 0 0 []).2
  have hinit : initT ⟨[], vs.map Except.ok⟩ = ⟨⟨[], vs.map Except.ok⟩, 0, 0, []⟩ := rfl
  refine ⟨?_, ?_, ?_, ?_⟩
  · rw [hinit, h1]
    simpa using pollRes_ok_iff vs n 0
  · intro hall
    rw [hinit, h1]
    rcases pollRes_cases vs n 0 with hok | hto
    · obtain ⟨t, ht, hr⟩ := (pollRes_ok_iff vs n 0).1 hok
      exact absurd (by simpa using hall t ht) hr
    · exact hto
  · intro t ht hr hmin
    constructor
    · rw [hinit, h2, pollSteps_first_hit vs n 0 t ht (by simpa using hr)
        (fun u hu => by simpa using hmin u hu)]
      simp
    · rw [hinit, h1, pollRes_ok_iff]
      exact ⟨t, ht, by simpa using hr⟩
  · intro e h
    exact MercuryError.noConfusion h

/-- C6 witness: a three-iteration poll over a pin script that never shows the
ready bit returns the Timeout error. -/
theorem c6_flash_poll_witness :
    (flash_poll 3 (initT ⟨[], ([] : List Nat).map Except.ok⟩)).2 =
      .error MercuryError.Timeout :=
  (c6_flash_poll 3 []).2.1 (by decide)

/-- C10: `flash_write` masks the page address to its low 10 bits before
computing the commit command, so its entire transport behaviour for page `p`
equals that for `p mod 1024`: page indices 1024 through 8191 alias onto
pages 0 through 1023. -/
theorem c10_page_aliasing (buf : List Nat) (page : Nat) (s : TState) :
    flash_write buf page s = flash_write buf (page % 1024) s := by
  simp only [flash_write, mask_mod_eq]

/-- C7 counterexample: with a transport whose very first pin sample fails
(error code 7), `spi_in` returns the error with an empty log — no write at
all, in particular no terminating Idle write, was issued before returning,
refuting the claim that the Idle byte is written regardless of errors. -/
theorem c7_no_idle_on_error_cex :
    (spi_in 1 DeviceSelect.FLASH (initT ⟨[], [Except.error 7]⟩)).2 = .error 7 ∧
    (spi_in 1 DeviceSelect.FLASH (initT ⟨[], [Except.error 7]⟩)).1.log = [] :=
  ⟨rfl, rfl⟩

/-- C7 amended: on an error-free transport, `spi_in` writes the Idle byte as
its final transport operation and only then returns the accumulated count;
but a transport error while sampling propagates immediately, without the
terminating Idle write. -/
theorem c7_idle_termination :
    (∀ (n : Nat) (sel : DeviceSelect) (vs : List Nat),
      spi_in n sel (initT ⟨[], vs.map Except.ok⟩) =
        (⟨⟨[], vs.map Except.ok⟩, 16 * n + 1, 8 * n,
          inBody vs 0 sel n ++ [Ev.wr [DeviceSelect.IDLE.bits]]⟩,
         .ok (inBytes vs 0 n, n))) ∧
    (∀ (n : Nat) (sel : DeviceSelect) (e : Nat),
      spi_in (n + 1) sel (initT ⟨[], [Except.error e]⟩) =
        (⟨⟨[], [Except.error e]⟩, 0, 1, []⟩, .error e)) := by
  constructor
  · intro n sel vs
    simpa [initT] using spi_in_spec n sel vs 0 0 []
  · intro n sel e
    rfl

set_option maxRecDepth 100000 in
/-- C8 counterexample: a stream of exactly 264×5 bytes makes the workflow
write SIX pages, 0 through 5 (an extra stale page 5), not just 0 through 4;
and a stream of 264×5+10 bytes does not fail with the oversize error — it
also ends with pages 0 through 5 written. -/
theorem c8_workflow_cex :
    wfPages (List.range (264 * 5)) = Except.ok [0, 1, 2, 3, 4, 5] ∧
    wfPages (List.range (264 * 5 + 10)) = Except.ok [0, 1, 2, 3, 4, 5] :=
  ⟨rfl, rfl⟩

set_option maxRecDepth 100000 in
/-- C8 amended: on a 264×5-byte stream the workflow writes pages 0–4 from
the stream and then one additional page 5 carrying the stale contents of the
page-4 buffer; on a 264×5+10-byte stream it does not fail: it writes pages
0–4 and then page 5 holding the 10 extra bytes followed by stale page-4
bytes (the oversize branch is not taken). -/
theorem c8_workflow_behaviour :
    workflow (List.range (264 * 5)) =
      Except.ok [(0, pageChunk (List.range (264 * 5)) 0),
                 (1, pageChunk (List.range (264 * 5)) 1),
                 (2, pageChunk (List.range (264 * 5)) 2),
                 (3, pageChunk (List.range (264 * 5)) 3),
                 (4, pageChunk (List.range (264 * 5)) 4),
                 (5, pageChunk (List.range (264 * 5)) 4)] ∧
    workflow (List.range (264 * 5 + 10)) =
      Except.ok [(0, pageChunk (List.range (264 * 5 + 10)) 0),
                 (1, pageChunk (List.range (264 * 5 + 10)) 1),
                 (2, pageChunk (List.range (264 * 5 + 10)) 2),
                 (3, pageChunk (List.range (264 * 5 + 10)) 3),
                 (4, pageChunk (List.range (264 * 5 + 10)) 4),
                 (5, (List.range (264 * 5 + 10)).drop (264 * 5) ++
                     (pageChunk (List.range (264 * 5 + 10)) 4).drop 10)] :=
  ⟨rfl, rfl⟩

/-- C9 counterexample: a transport failing the command-phase write with
error 1 and the recovery Idle write with error 2 makes `flash_id` return
error 2 — the recovery failure replaces the original error, refuting the
claim that the original error is always the one propagated. -/
theorem c9_recovery_cex :
    (flash_id (initT ⟨[Except.error 1, Except.error 2], []⟩)).2 = .error 2 ∧
    (2 : Nat) ≠ 1 :=
  ⟨rfl, by decide⟩

/-- C9 amended: when a phase of `flash_id` fails, a recovery select(Idle)
write is attempted before returning (no panic in any case); if the recovery
write succeeds the original error is propagated, but if the recovery write
itself fails, its error replaces the original in the returned result. -/
theorem c9_recovery_behaviour (e1 e2 : Nat) :
    (flash_id (initT ⟨[Except.error e1], []⟩)).2 = .error e1 ∧
    (flash_id (initT ⟨[Except.error e1], []⟩)).1.log = [Ev.wr [DeviceSelect.IDLE.bits]] ∧
    (flash_id (initT ⟨[], [Except.error e2]⟩)).2 = .error e2 ∧
    (flash_id (initT ⟨[], [Except.error e2]⟩)).1.log =
      [Ev.wr (spiWord 0x9F DeviceSelect.FLASH), Ev.wr [DeviceSelect.IDLE.bits]] ∧
    (flash_id (initT ⟨[Except.error e1, Except.error e2], []⟩)).2 = .error e2 :=
  ⟨rfl, rfl, rfl, rfl, rfl⟩

end Mercpcl
